import Mathlib

/-!
Verification development for the IndiaBix current-affairs quiz pipeline
(`src/main.py`).  The Python source is shallowly embedded: pure helpers become
Lean functions, the stateful orchestrator `scrape_questions_to_mongodb` becomes
explicit state passing over a `Store` value, and the external collaborators
(network, MongoDB, the Google translator call, the Telegram client) become
injected parameters, so that every control-flow decision of the source is
reproduced faithfully.
-/

namespace Bix

/-! ### Python string primitives used by the source -/

/-- Python slice `l[:k]` for an `int` index `k` (possibly negative):
a negative `k` keeps everything up to `len(l) + k`. -/
def pyTake (l : List Char) (k : Int) : List Char :=
  if 0 ≤ k then l.take k.toNat else l.take (l.length - (-k).toNat)

/-- Python substring containment `pattern in s`, on character lists. -/
def listContains (pattern : List Char) : List Char → Bool
  | [] => pattern.isPrefixOf []
  | c :: t => pattern.isPrefixOf (c :: t) || listContains pattern t

/-- Python `pattern in s` on strings (argument order: the haystack first). -/
def strContains (s pattern : String) : Bool :=
  listContains pattern.data s.data

/-- Python `s.rstrip(c)`: drop every trailing occurrence of `c`. -/
def rstripChar (c : Char) (s : String) : String :=
  String.mk ((s.data.reverse.dropWhile (fun x => x = c)).reverse)

/-- Python `s.startswith(pattern)`, on the character lists. -/
def strStartsWith (s pattern : String) : Bool :=
  pattern.data.isPrefixOf s.data

/-- Worker for `pySplit`: `acc` holds the current token reversed. -/
def pySplitChar (c : Char) : List Char → List Char → List String
  | acc, [] => [String.mk acc.reverse]
  | acc, x :: xs =>
    if x = c then String.mk acc.reverse :: pySplitChar c [] xs
    else pySplitChar c (x :: acc) xs

/-- Python `s.split(c)` for a one-character separator: every occurrence
splits, empty tokens are kept. -/
def pySplit (s : String) (c : Char) : List String := pySplitChar c [] s.data

/-! ### `TelegramQuizBot.truncate_text` (src/main.py lines 74-75)

`return text[:max_length-3] + '...' if len(text) > max_length else text` -/

def truncate_text (text : String) (max_length : Nat) : String :=
  if max_length < text.data.length then
    String.mk (pyTake text.data ((max_length : Int) - 3) ++ ['.', '.', '.'])
  else text

/-! ### Hidden-marker extraction (src/main.py line 156)

`hidden_input['value'].split('\x7b', 1)[-1].rsplit('\x7d', 1)[0]` when the hidden
input and its `value` attribute are present, else `""`. -/

/-- `v.split(brace, 1)[-1]`: the part after the first `'\x7b'`, or all of `v`
when there is none. -/
def afterFirstBrace (l : List Char) : List Char :=
  if '{' ∈ l then (l.dropWhile (fun c => c ≠ '{')).drop 1 else l

/-- `w.rsplit(brace, 1)[0]`: the part before the last `'\x7d'`, or all of `w`
when there is none. -/
def beforeLastBrace (l : List Char) : List Char :=
  if '}' ∈ l then ((l.reverse.dropWhile (fun c => c ≠ '}')).drop 1).reverse else l

/-- The substring between the first `'\x7b'` and the last `'\x7d'` with the
Python fallbacks of `split`/`rsplit`. -/
def extract_braces (v : String) : String :=
  String.mk (beforeLastBrace (afterFirstBrace v.data))

/-- Line 156 in full.  The outer `Option` is presence of the hidden `input`
element, the inner one presence of its `value` attribute. -/
def value_in_braces_of : Option (Option String) → String
  | some (some v) => extract_braces v
  | _ => ""

/-! ### Parse-time letter map (src/main.py lines 165-167)

`option_map = \x7b'A': 0, 'B': 1, 'C': 2, 'D': 3\x7d` and
`option_map.get(value_in_braces.upper(), 0)`. -/

def option_map_find (s : String) : Option Nat :=
  if s = "A" then some 0
  else if s = "B" then some 1
  else if s = "C" then some 2
  else if s = "D" then some 3
  else none

/-- Python `option_map.get(s, 0)`. -/
def option_map_get (s : String) : Nat := (option_map_find s).getD 0

/-- Python `s.upper()`: uppercase each character (ASCII case mapping, which is
all the markers use). -/
def pyUpper (s : String) : String := String.mk (s.data.map Char.toUpper)

/-! ### Data model -/

/-- The raw fields a question block yields when its extraction (lines 150-159)
succeeds.  A block whose extraction raises is represented as `none` where a
`Option RawBlock` occurs. -/
structure RawBlock where
  qtxt : String
  options : List String
  hidden : Option (Option String)
  explanation : String
deriving DecidableEq

/-- The document built and inserted at lines 169-178. -/
structure QuestionDoc where
  question : String
  options : List String
  value_in_braces : String
  explanation : String
  correct_option_id : Nat
  day : String
deriving DecidableEq

/-- The MongoDB state: inserted documents tagged with their
`(year, month)` collection, in insertion order. -/
abbrev Store := List ((String × String) × QuestionDoc)

/-- `collection.find_one(\x7b"day": day\x7d)` used as a boolean (line 136). -/
def storeExists (st : Store) (ym : String × String) (day : String) : Bool :=
  st.any fun e => decide (e.1 = ym ∧ e.2.day = day)

/-- Lines 161-176: translate the three text fields and assemble the document
for one successfully extracted block.  `tr` is the (already
retry-wrapped) translator. -/
def mkDoc (tr : String → String) (day : String) (b : RawBlock) : QuestionDoc :=
  ⟨tr b.qtxt,
   b.options.map tr,
   value_in_braces_of b.hidden,
   tr b.explanation,
   option_map_get (pyUpper (value_in_braces_of b.hidden)),
   day⟩

/-- The per-block loop of lines 148-182: each block is processed inside
`try`/`except`, a failed block (`none`) is skipped, a successful one is
inserted into the collection and appended to `new_questions`. -/
def insertBlocks (tr : String → String) (ym : String × String) (day : String) :
    List (Option RawBlock) → Store → Store × List QuestionDoc
  | [], st => (st, [])
  | none :: rest, st => insertBlocks tr ym day rest st
  | some b :: rest, st =>
    let doc := mkDoc tr day b
    let out := insertBlocks tr ym day rest (st ++ [(ym, doc)])
    (out.1, doc :: out.2)

/-! ### `GoogleTranslatorWrapper.translate` (src/main.py lines 36-47)

`max_retries = 3`; each failed attempt (whether `RequestError` or any other
exception — they run the same handler body) logs and sleeps 2 seconds; success
returns immediately; exhaustion returns the original text. -/

/-- The two handler arms of lines 41-46; they behave identically. -/
inductive TransFail
  | requestErr
  | unexpectedErr
deriving DecidableEq

/-- What one call of `translate` did: how many underlying attempts ran, the
sleep durations performed (in order), and the returned text. -/
structure TransResult where
  attempts : Nat
  sleeps : List Nat
  result : String
deriving DecidableEq

/-- The `for attempt in range(max_retries)` loop; `call n` is the outcome of
the underlying `self.translator.translate(text)` on attempt number `n`. -/
def translateGo (call : Nat → Except TransFail String) (text : String) :
    Nat → Nat → List Nat → TransResult
  | 0, done, ds => ⟨done, ds, text⟩
  | k + 1, done, ds =>
    match call done with
    | Except.ok r => ⟨done + 1, ds, r⟩
    | Except.error _ => translateGo call text k (done + 1) (ds ++ [2])

/-- `GoogleTranslatorWrapper.translate` with the underlying network call
injected. -/
def translate (call : Nat → Except TransFail String) (text : String) : TransResult :=
  translateGo call text 3 0 []

/-! ### `get_current_month` and link discovery (src/main.py lines 104-124) -/

/-- Python `f"\x7bm:02d\x7d"` for a (positive) month number. -/
def pad2 (n : Nat) : String :=
  if n < 10 then "0" ++ toString n else toString n

/-- `get_current_month`: the zero-padded month of `datetime.now(ist)` where
`ist` is the fixed `Asia/Kolkata` zone.  The zone-aware now is modelled as the
input `ist_month`, the month number that clock shows. -/
def get_current_month (ist_month : Nat) : String := pad2 ist_month

/-- `urljoin("https://www.indiabix.com/", href)` for the href shapes that can
occur: absolute URLs are kept, path-absolute and relative hrefs are resolved
against the site root. -/
def urljoin_bix (href : String) : String :=
  if strStartsWith href "http" then href
  else if strStartsWith href "/" then "https://www.indiabix.com" ++ href
  else "https://www.indiabix.com/" ++ href

/-- Lines 119-124: keep the hrefs containing
`f"/current-affairs/2024-\x7bmonth_digit\x7d-"` (the year is the literal
`2024`) and join them against the site root. -/
def validLinks (month_digit : String) (hrefs : List String) : List String :=
  (hrefs.filter fun h =>
    strContains h ("/current-affairs/2024-" ++ month_digit ++ "-")).map urljoin_bix

/-- Modelled from the spec, claim C8: "return the set of day-page URLs whose
path encodes the current year and the current month".  The year is the current
year, not a constant; it is compared with `validLinks`, the definition read
off the source. -/
def specCurrentLinks (year month : Nat) (hrefs : List String) : List String :=
  (hrefs.filter fun h =>
    strContains h ("/current-affairs/" ++ toString year ++ "-" ++ pad2 month ++ "-")).map
    urljoin_bix

/-- Line 132-133: `_, year, month, day = full_url.split("/")[-4:]` then
`day = day.rstrip('/')`.  On a URL with fewer than four `/`-separated parts
Python would raise `ValueError`; no `urljoin` output of the site's hrefs has
that shape, and the model totalizes that case with empty strings. -/
def urlYMD (u : String) : (String × String) × String :=
  match (pySplit u '/').drop ((pySplit u '/').length - 4) with
  | [_, y, m, d] => ((y, m), rstripChar '/' d)
  | _ => (("", ""), "")

/-! ### The orchestrator `scrape_questions_to_mongodb` (src/main.py 109-189) -/

/-- One day page as the per-block extraction sees it: `none` entries are
blocks whose extraction raises (caught at line 181). -/
structure DayPage where
  blocks : List (Option RawBlock)

/-- The external web: the index page's candidate hrefs (`none` = the index
fetch raises) and each day page by URL (`none` = that day's fetch raises). -/
structure WebEnv where
  index : Option (List String)
  page : String → Option DayPage

/-- Result of the per-link loop of lines 131-182.  `aborted` records that a
day-page fetch raised `RequestException`, which escapes the loop. -/
structure LoopOut where
  store : Store
  fetched : List String
  docs : List QuestionDoc
  aborted : Bool

/-- The `for full_url in valid_links` loop: dedup-check before fetching
(lines 135-140), day-page fetch (142-143, a failure escapes), then the
per-block insertion loop. -/
def runLinks (tr : String → String) (pg : String → Option DayPage) :
    List String → Store → LoopOut
  | [], st => ⟨st, [], [], false⟩
  | u :: rest, st =>
    if storeExists st (urlYMD u).1 (urlYMD u).2 then runLinks tr pg rest st
    else
      match pg u with
      | none => ⟨st, [u], [], true⟩
      | some page =>
        let ins := insertBlocks tr (urlYMD u).1 (urlYMD u).2 page.blocks st
        let out := runLinks tr pg rest ins.1
        ⟨out.store, u :: out.fetched, ins.2 ++ out.docs, out.aborted⟩

/-- Observable outcome of one `scrape_questions_to_mongodb()` run:
the final MongoDB contents, the day pages fetched, the returned
`new_questions` list, how many times `close_connection` ran, and whether the
Mongo client was constructed at all. -/
structure ScrapeResult where
  store : Store
  fetched : List String
  returned : List QuestionDoc
  closed : Nat
  connected : Bool
deriving DecidableEq

/-- `scrape_questions_to_mongodb`.  An index-fetch failure hits the handler of
lines 187-189 before the Mongo client exists.  A day-page fetch failure
reaches the same handler from inside the loop: the function returns `[]`, and
the `close_connection()` call at line 184 — which is on the straight-line path,
not in a `finally` — is skipped. -/
def scrape_questions_to_mongodb (tr : String → String) (env : WebEnv)
    (ist_month : Nat) (st0 : Store) : ScrapeResult :=
  match env.index with
  | none => ⟨st0, [], [], 0, false⟩
  | some hrefs =>
    let out := runLinks tr env.page (validLinks (get_current_month ist_month) hrefs) st0
    if out.aborted then ⟨out.store, out.fetched, [], 0, true⟩
    else ⟨out.store, out.fetched, out.docs, 1, true⟩

/-! ### `TelegramQuizBot.send_poll` (src/main.py lines 77-102) -/

/-- The keys of `\x7bchr(65+i): i for i in range(n)\x7d` in order. -/
def pollLetters (n : Nat) : List String :=
  (List.range n).map fun i => String.mk [Char.ofNat (65 + i)]

/-- Index of the first equal key — dictionary `get` for the distinct keys the
comprehension produces. -/
def lookupIdx : List String → String → Option Nat
  | [], _ => none
  | k :: ks, letter => if k = letter then some 0 else (lookupIdx ks letter).map (· + 1)

/-- `option_mapping.get(correct_option)` at line 86, with the mapping rebuilt
from the current options count `n` (line 83). -/
def option_mapping (n : Nat) (letter : String) : Option Nat :=
  lookupIdx (pollLetters n) letter

/-- The poll payload handed to `bot.send_poll` (lines 91-99). -/
structure PollPayload where
  question : String
  options : List String
  is_anonymous : Bool
  quiz : Bool
  correct_option_id : Nat
  explanation : String
deriving DecidableEq

/-- `send_poll`: truncate the three text fields, rebuild the letter map from
the post-truncation options, resolve `value_in_braces` against it; `none`
means the record is skipped (log-and-return at lines 87-89), `some` is the
submitted payload. -/
def send_poll (doc : QuestionDoc) : Option PollPayload :=
  let question := truncate_text doc.question 300
  let options := doc.options.map fun o => truncate_text o 100
  let explanation := truncate_text doc.explanation 200
  match option_mapping options.length doc.value_in_braces with
  | none => none
  | some i => some ⟨question, options, true, true, i, explanation⟩

/-! ### Concrete fixtures used by counterexamples and witnesses -/

/-- The documents `insertBlocks` produces, stated directly: the successfully
extracted blocks in order, each through `mkDoc`. -/
def blockDocs (tr : String → String) (day : String)
    (blocks : List (Option RawBlock)) : List QuestionDoc :=
  (blocks.filterMap id).map (mkDoc tr day)

/-- A well-formed four-option question block with marker `A`. -/
def c4block : RawBlock := ⟨"q1", ["o1", "o2", "o3", "o4"], some (some "\x7bA\x7d"), "ex"⟩

/-- A web environment with three matching day links in which the second
day's page fetch fails and the other two would succeed. -/
def c4env : WebEnv :=
  ⟨some ["/current-affairs/2024-05-01/", "/current-affairs/2024-05-02/",
         "/current-affairs/2024-05-03/"],
   fun u =>
     if u = "https://www.indiabix.com/current-affairs/2024-05-02/" then none
     else if u = "https://www.indiabix.com/current-affairs/2024-05-01/" then some ⟨[some c4block]⟩
     else if u = "https://www.indiabix.com/current-affairs/2024-05-03/" then some ⟨[some c4block]⟩
     else none⟩

/-- A two-option block whose marker letter `D` is outside the options range. -/
def c6block : RawBlock := ⟨"q", ["o1", "o2"], some (some "\x7bD\x7d"), "ex"⟩

/-- A four-option block whose marker letter is the lowercase `e`. -/
def c9block : RawBlock := ⟨"q", ["o1", "o2", "o3", "o4"], some (some "\x7be\x7d"), "ex"⟩

/-! ## Theorems -/

/-- C2: if every attempt of the underlying translation call fails — with either
error kind, handled identically — then `translate` makes exactly 3 attempts,
sleeps 2 time units after each failed attempt (so consecutive attempts are
separated by a 2-unit delay), and returns the original text instead of
raising. -/
theorem C2_translate_fallback (call : Nat → Except TransFail String) (text : String)
    (hfail : ∀ n, n < 3 → ∃ e, call n = Except.error e) :
    translate call text = ⟨3, [2, 2, 2], text⟩ := by
  obtain ⟨e0, h0⟩ := hfail 0 (by omega)
  obtain ⟨e1, h1⟩ := hfail 1 (by omega)
  obtain ⟨e2, h2⟩ := hfail 2 (by omega)
  simp [translate, translateGo, h0, h1, h2]

/-- Witness for C2 at a stub that always fails with a request-level error. -/
theorem C2_witness :
    (∀ n, n < 3 →
      ∃ e, (fun _ => Except.error TransFail.requestErr : Nat → Except TransFail String) n
        = Except.error e) ∧
    translate (fun _ => Except.error TransFail.requestErr) "hello" = ⟨3, [2, 2, 2], "hello"⟩ :=
  ⟨fun _ _ => ⟨TransFail.requestErr, rfl⟩,
   C2_translate_fallback _ "hello" (fun _ _ => ⟨TransFail.requestErr, rfl⟩)⟩

/-- C3, counterexample: for limit `m = 2 < 3` the Python slice `text[:m-3]`
is a negative slice, so `truncate_text "abcd" 2 = "abc..."` has length 6 > 2,
refuting "for every limit m, the result has length at most m". -/
theorem C3_cex : ¬ ((truncate_text "abcd" 2).length ≤ 2) := by decide

/-- C3 as amended: for every text `t` and every limit `m ≥ 3`,
`truncate_text t m` has length at most `m`; if `t` is longer than `m` the
result is the first `m - 3` characters of `t` followed by `"..."`, and
otherwise it is `t` unchanged. -/
theorem C3_truncate_law (t : String) (m : Nat) (hm : 3 ≤ m) :
    (truncate_text t m).length ≤ m ∧
    (m < t.length → truncate_text t m = String.mk (t.data.take (m - 3) ++ ['.', '.', '.'])) ∧
    (t.length ≤ m → truncate_text t m = t) := by
  have hlen : t.length = t.data.length := rfl
  have h3 : (0 : Int) ≤ (m : Int) - 3 := by omega
  have htn : ((m : Int) - 3).toNat = m - 3 := by omega
  by_cases h : m < t.data.length
  · refine ⟨?_, fun _ => ?_, fun hc => absurd h (by omega)⟩
    · show (truncate_text t m).length ≤ m
      unfold truncate_text pyTake
      rw [if_pos h, if_pos h3, htn]
      show (t.data.take (m - 3) ++ ['.', '.', '.']).length ≤ m
      simp [List.length_take]
      omega
    · unfold truncate_text pyTake
      rw [if_pos h, if_pos h3, htn]
  · have hc : t.data.length ≤ m := by omega
    refine ⟨?_, fun hlt => absurd hlt (by omega), fun _ => ?_⟩
    · unfold truncate_text
      rw [if_neg h]
      omega
    · unfold truncate_text
      rw [if_neg h]

/-- Witness for C3 at `t = "abcdef"`, `m = 4`. -/
theorem C3_witness :
    (3 ≤ 4) ∧
    (truncate_text "abcdef" 4).length ≤ 4 ∧
    (4 < "abcdef".length → truncate_text "abcdef" 4
      = String.mk ("abcdef".data.take 1 ++ ['.', '.', '.'])) ∧
    ("abcdef".length ≤ 4 → truncate_text "abcdef" 4 = "abcdef") :=
  ⟨by omega, C3_truncate_law "abcdef" 4 (by omega)⟩

/-- C10, counterexample: a hidden field that is present, with value `"\x7b\x7d"`,
produces the empty marker, refuting "the empty string is produced only when the
hidden field or its value attribute is absent". -/
theorem C10_cex :
    value_in_braces_of (some (some "\x7b\x7d")) = "" ∧
    (some (some "\x7b\x7d") : Option (Option String)) ≠ none ∧
    (some (some "\x7b\x7d") : Option (Option String)) ≠ some none := by
  refine ⟨by decide, by decide, by decide⟩

/-- C10 as amended: when the hidden field is present and its value contains
neither brace, the extracted marker is the entire value; an absent field or
absent value attribute yields the empty string (but, per the counterexample,
a present value whose brace-delimited segment is empty also yields it). -/
theorem C10_braces_law (v : String) (h1 : '{' ∉ v.data) (h2 : '}' ∉ v.data) :
    value_in_braces_of (some (some v)) = v ∧
    value_in_braces_of none = "" ∧
    value_in_braces_of (some none) = "" := by
  refine ⟨?_, rfl, rfl⟩
  show extract_braces v = v
  unfold extract_braces afterFirstBrace
  rw [if_neg h1]
  unfold beforeLastBrace
  rw [if_neg h2]

/-- Witness for C10 at the brace-free value `"abc"`. -/
theorem C10_witness :
    ('{' ∉ "abc".data) ∧ ('}' ∉ "abc".data) ∧
    value_in_braces_of (some (some "abc")) = "abc" :=
  ⟨by decide, by decide, (C10_braces_law "abc" (by decide) (by decide)).1⟩

/-- The static parse-time map `\x7b'A': 0, 'B': 1, 'C': 2, 'D': 3\x7d` only
ever produces values below 4, whatever the letter. -/
theorem option_map_get_lt_four (s : String) : option_map_get s < 4 := by
  unfold option_map_get option_map_find
  repeat' split
  all_goals simp

/-- `insertBlocks` appends exactly the documents of the successfully
extracted blocks, tagged with the collection, and returns those documents. -/
theorem insertBlocks_eq (tr : String → String) (ym : String × String) (day : String)
    (blocks : List (Option RawBlock)) (st : Store) :
    insertBlocks tr ym day blocks st =
      (st ++ (blockDocs tr day blocks).map (fun doc => (ym, doc)), blockDocs tr day blocks) := by
  induction blocks generalizing st with
  | nil => simp [insertBlocks, blockDocs]
  | cons ob rest ih =>
    cases ob with
    | none => simpa [insertBlocks, blockDocs] using ih st
    | some b => simp [insertBlocks, blockDocs, ih]

/-- C6, counterexample: a successfully parsed two-option block with marker
letter `D` is persisted with `correct_option_id = 3`, which is not below
`len(options) = 2` — the static A-D map ignores the actual option count. -/
theorem C6_cex :
    (mkDoc (fun s => s) "03" c6block).correct_option_id = 3 ∧
    (mkDoc (fun s => s) "03" c6block).options.length = 2 ∧
    ¬ ((mkDoc (fun s => s) "03" c6block).correct_option_id
        < (mkDoc (fun s => s) "03" c6block).options.length) ∧
    (insertBlocks (fun s => s) ("2024", "05") "03" [some c6block] []).2
      = [mkDoc (fun s => s) "03" c6block] :=
  ⟨by decide, by decide, by decide, by decide⟩

/-- C6 as amended: for every successfully parsed and persisted block the
stored `correct_option_id` lies in `[0, 4)` (the range of the static A-D
map); when the block has at least 4 options it therefore lies in
`[0, len(options))`; an unrecognized letter falls back to index 0; and in
every case the record is persisted rather than dropped. -/
theorem C6_correct_id_bounds (tr : String → String) (ym : String × String) (day : String)
    (b : RawBlock) (blocks : List (Option RawBlock)) (st : Store)
    (hb : some b ∈ blocks) :
    (mkDoc tr day b).correct_option_id < 4 ∧
    (4 ≤ (mkDoc tr day b).options.length →
      (mkDoc tr day b).correct_option_id < (mkDoc tr day b).options.length) ∧
    (option_map_find (pyUpper (value_in_braces_of b.hidden)) = none →
      (mkDoc tr day b).correct_option_id = 0) ∧
    mkDoc tr day b ∈ (insertBlocks tr ym day blocks st).2 := by
  refine ⟨option_map_get_lt_four _,
    fun h4 => lt_of_lt_of_le (option_map_get_lt_four _) h4, ?_, ?_⟩
  · intro hnone
    show option_map_get (pyUpper (value_in_braces_of b.hidden)) = 0
    unfold option_map_get
    rw [hnone]
    rfl
  · rw [insertBlocks_eq]
    show mkDoc tr day b ∈ blockDocs tr day blocks
    unfold blockDocs
    exact List.mem_map.mpr ⟨b, List.mem_filterMap.mpr ⟨some b, hb, rfl⟩, rfl⟩

/-- Witness for C6 at an unrecognized marker (`"\x7bZ\x7d"`, falling back to
index 0) inside a singleton block list. -/
theorem C6_witness :
    (some (⟨"q", ["o1", "o2", "o3", "o4"], some (some "\x7bZ\x7d"), "ex"⟩ : RawBlock)
      ∈ [some (⟨"q", ["o1", "o2", "o3", "o4"], some (some "\x7bZ\x7d"), "ex"⟩ : RawBlock)]) ∧
    (mkDoc (fun s => s) "07"
        ⟨"q", ["o1", "o2", "o3", "o4"], some (some "\x7bZ\x7d"), "ex"⟩).correct_option_id < 4 ∧
    (mkDoc (fun s => s) "07"
        ⟨"q", ["o1", "o2", "o3", "o4"], some (some "\x7bZ\x7d"), "ex"⟩).correct_option_id = 0 ∧
    mkDoc (fun s => s) "07" ⟨"q", ["o1", "o2", "o3", "o4"], some (some "\x7bZ\x7d"), "ex"⟩
      ∈ (insertBlocks (fun s => s) ("2024", "05") "07"
          [some ⟨"q", ["o1", "o2", "o3", "o4"], some (some "\x7bZ\x7d"), "ex"⟩] []).2 := by
  have h := C6_correct_id_bounds (fun s => s) ("2024", "05") "07"
    ⟨"q", ["o1", "o2", "o3", "o4"], some (some "\x7bZ\x7d"), "ex"⟩
    [some ⟨"q", ["o1", "o2", "o3", "o4"], some (some "\x7bZ\x7d"), "ex"⟩] []
    (List.mem_singleton.mpr rfl)
  exact ⟨List.mem_singleton.mpr rfl, h.1, h.2.2.1 (by decide), h.2.2.2⟩

/-- For the letter range the publish map uses, `Char.ofNat` is the plain
codepoint. -/
theorem char_AZ_toNat (i : Nat) (hi : i < 26) : (Char.ofNat (65 + i)).toNat = 65 + i := by
  interval_cases i <;> rfl

theorem pollLetters_length (n : Nat) : (pollLetters n).length = n := by
  simp [pollLetters]

theorem pollLetters_getElem (n i : Nat) (h : i < (pollLetters n).length) :
    (pollLetters n)[i] = String.mk [Char.ofNat (65 + i)] := by
  simp [pollLetters]

/-- With at most 26 options the generated keys A, B, C, … are pairwise
distinct. -/
theorem pollLetters_nodup (n : Nat) (hn : n ≤ 26) : (pollLetters n).Nodup := by
  unfold pollLetters
  refine List.Nodup.map_on ?_ (List.nodup_range n)
  intro x hx y hy hxy
  rw [List.mem_range] at hx hy
  have hd : Char.ofNat (65 + x) = Char.ofNat (65 + y) := by
    injection hxy with h1
    injection h1 with h2 h3
  have ht := congrArg Char.toNat hd
  rw [char_AZ_toNat x (lt_of_lt_of_le hx hn), char_AZ_toNat y (lt_of_lt_of_le hy hn)] at ht
  omega

/-- Dictionary lookup over distinct keys returns the key's position. -/
theorem lookupIdx_get (l : List String) (hl : l.Nodup) (i : Nat) (h : i < l.length) :
    lookupIdx l l[i] = some i := by
  induction l generalizing i with
  | nil => simp at h
  | cons k ks ih =>
    cases i with
    | zero => simp [lookupIdx]
    | succ j =>
      have hj : j < ks.length := by simpa using h
      have hk : k ≠ (k :: ks)[j + 1] := by
        intro he
        simp only [List.getElem_cons_succ] at he
        exact (List.nodup_cons.mp hl).1 (he ▸ List.getElem_mem hj)
      rw [lookupIdx, if_neg hk]
      simp only [List.getElem_cons_succ]
      rw [ih (List.nodup_cons.mp hl).2 j hj]
      rfl

/-- Lookup fails exactly when the letter is not among the keys. -/
theorem lookupIdx_none (l : List String) (x : String) (hx : x ∉ l) : lookupIdx l x = none := by
  induction l with
  | nil => rfl
  | cons k ks ih =>
    have hk : k ≠ x := fun h => hx (h ▸ List.mem_cons_self k ks)
    rw [lookupIdx, if_neg hk, ih (fun h => hx (List.mem_cons_of_mem k h))]
    rfl

/-- The letter-to-index law of the rebuilt publish-time mapping. -/
theorem option_mapping_letter (n i : Nat) (hn : n ≤ 26) (hi : i < n) :
    option_mapping n (String.mk [Char.ofNat (65 + i)]) = some i := by
  have h : i < (pollLetters n).length := by simpa [pollLetters_length] using hi
  have hg := lookupIdx_get (pollLetters n) (pollLetters_nodup n hn) i h
  rwa [pollLetters_getElem n i h] at hg

/-- A letter with codepoint at least 97 (any lowercase ASCII letter) is not a
key of the publish-time mapping when there are at most 26 options. -/
theorem option_mapping_lowercase_none (n : Nat) (c : Char) (hn : n ≤ 26)
    (hc : 97 ≤ c.toNat) : option_mapping n (String.mk [c]) = none := by
  apply lookupIdx_none
  intro hmem
  unfold pollLetters at hmem
  obtain ⟨i, hi, heq⟩ := List.mem_map.mp hmem
  rw [List.mem_range] at hi
  have hd : Char.ofNat (65 + i) = c := by
    injection heq with h1
    injection h1 with h2 h3
  have ht := congrArg Char.toNat hd
  rw [char_AZ_toNat i (lt_of_lt_of_le hi hn)] at ht
  omega

/-- `send_poll` stated as a single expression: the payload is built from the
post-truncation fields exactly when the mapping resolves the stored letter. -/
theorem send_poll_eq (doc : QuestionDoc) :
    send_poll doc =
      (option_mapping (doc.options.map fun o => truncate_text o 100).length
          doc.value_in_braces).map
        (fun i => ⟨truncate_text doc.question 300,
                   doc.options.map fun o => truncate_text o 100, true, true, i,
                   truncate_text doc.explanation 200⟩) := by
  show (match option_mapping (doc.options.map fun o => truncate_text o 100).length
      doc.value_in_braces with
    | none => none
    | some i =>
      some (⟨truncate_text doc.question 300,
             doc.options.map fun o => truncate_text o 100, true, true, i,
             truncate_text doc.explanation 200⟩ : PollPayload)) = _
  cases option_mapping (doc.options.map fun o => truncate_text o 100).length
      doc.value_in_braces <;> rfl

/-- C7: the publish-time letter map is rebuilt from the record's current
post-truncation options sequence and sends the first `n` letters to their
positions; an unresolved letter makes `send_poll` skip without submitting
anything; and a submitted poll's correct index is exactly what the rebuilt
mapping assigns to the stored letter — never a wrong index. -/
theorem C7_letter_mapping (doc : QuestionDoc) (i : Nat)
    (hn : doc.options.length ≤ 26) (hi : i < doc.options.length) :
    option_mapping (doc.options.map fun o => truncate_text o 100).length
        (String.mk [Char.ofNat (65 + i)]) = some i ∧
    (option_mapping (doc.options.map fun o => truncate_text o 100).length
        doc.value_in_braces = none → send_poll doc = none) ∧
    (∀ p, send_poll doc = some p →
      p.options = doc.options.map (fun o => truncate_text o 100) ∧
      option_mapping p.options.length doc.value_in_braces = some p.correct_option_id) := by
  have hlen : (doc.options.map fun o => truncate_text o 100).length = doc.options.length :=
    List.length_map _ _
  refine ⟨?_, ?_, ?_⟩
  · rw [hlen]
    exact option_mapping_letter _ i hn hi
  · intro hnone
    rw [send_poll_eq, hnone]
    rfl
  · intro p hp
    rw [send_poll_eq] at hp
    cases hmap : option_mapping (doc.options.map fun o => truncate_text o 100).length
        doc.value_in_braces with
    | none =>
      rw [hmap] at hp
      exact Option.noConfusion hp
    | some j =>
      rw [hmap] at hp
      injection hp with hp'
      rw [← hp']
      exact ⟨rfl, hmap⟩

/-- Witness for C7 at a four-option record with stored letter `B`. -/
theorem C7_witness :
    ((⟨"q", ["o1", "o2", "o3", "o4"], "B", "ex", 1, "01"⟩ :
        QuestionDoc).options.length ≤ 26) ∧
    (1 < (⟨"q", ["o1", "o2", "o3", "o4"], "B", "ex", 1, "01"⟩ :
        QuestionDoc).options.length) ∧
    option_mapping
        ((⟨"q", ["o1", "o2", "o3", "o4"], "B", "ex", 1, "01"⟩ :
          QuestionDoc).options.map fun o => truncate_text o 100).length
        (String.mk [Char.ofNat (65 + 1)]) = some 1 :=
  ⟨by decide, by decide,
   (C7_letter_mapping ⟨"q", ["o1", "o2", "o3", "o4"], "B", "ex", 1, "01"⟩ 1
     (by decide) (by decide)).1⟩

/-- C9, counterexample: the lowercase marker `e` uppercases to `E`, which the
static parse map does not contain, so the persisted `correct_option_id` is the
unrecognized-letter fallback 0, not a resolved index — refuting the claim for
arbitrary lowercase marker letters. -/
theorem C9_cex :
    (mkDoc (fun s => s) "01" c9block).value_in_braces = "e" ∧
    option_map_find (pyUpper (mkDoc (fun s => s) "01" c9block).value_in_braces) = none ∧
    (mkDoc (fun s => s) "01" c9block).correct_option_id = 0 :=
  ⟨by decide, by decide, by decide⟩

/-- C9 as amended: for every parsed record whose brace-delimited marker is a
lowercase letter among a-d, the record is persisted with a resolved
`correct_option_id` (the letter is uppercased only for the parse-time
computation; `value_in_braces` keeps the lowercase letter verbatim), yet
`send_poll` — whose mapping over at most 26 options has only uppercase keys
and resolves the stored letter case-sensitively — always skips the record. -/
theorem C9_lowercase_marker (tr : String → String) (day : String) (b : RawBlock) (c : Char)
    (hc : c = 'a' ∨ c = 'b' ∨ c = 'c' ∨ c = 'd')
    (hv : value_in_braces_of b.hidden = String.mk [c])
    (hn : b.options.length ≤ 26) :
    (mkDoc tr day b).value_in_braces = String.mk [c] ∧
    option_map_find (pyUpper (String.mk [c])) = some (c.toNat - 97) ∧
    (mkDoc tr day b).correct_option_id = c.toNat - 97 ∧
    send_poll (mkDoc tr day b) = none := by
  have hsend : send_poll (mkDoc tr day b) = none := by
    rw [send_poll_eq]
    have hvb : (mkDoc tr day b).value_in_braces = String.mk [c] := hv
    have hlc : 97 ≤ c.toNat := by rcases hc with h | h | h | h <;> subst h <;> decide
    have hlen : ((mkDoc tr day b).options.map fun o => truncate_text o 100).length
        = b.options.length := by simp [mkDoc]
    rw [hvb, hlen, option_mapping_lowercase_none b.options.length c hn hlc]
    rfl
  refine ⟨hv, ?_, ?_, hsend⟩
  · rcases hc with h | h | h | h <;> subst h <;> decide
  · show option_map_get (pyUpper (value_in_braces_of b.hidden)) = c.toNat - 97
    rw [hv]
    rcases hc with h | h | h | h <;> subst h <;> decide

/-- Witness for C9 at a four-option block with marker `"\x7bb\x7d"`. -/
theorem C9_witness :
    value_in_braces_of (some (some "\x7bb\x7d")) = String.mk ['b'] ∧
    (mkDoc (fun s => s) "01"
        ⟨"q", ["o1", "o2", "o3", "o4"], some (some "\x7bb\x7d"), "ex"⟩).correct_option_id
      = 'b'.toNat - 97 ∧
    send_poll (mkDoc (fun s => s) "01"
        ⟨"q", ["o1", "o2", "o3", "o4"], some (some "\x7bb\x7d"), "ex"⟩) = none := by
  have h := C9_lowercase_marker (fun s => s) "01"
    ⟨"q", ["o1", "o2", "o3", "o4"], some (some "\x7bb\x7d"), "ex"⟩ 'b'
    (Or.inr (Or.inl rfl)) (by decide) (by decide)
  exact ⟨by decide, h.2.2.1, h.2.2.2⟩

/-- C8, counterexample: with the IST clock in May of a year other than 2024,
an index href that encodes the current year and month (here
`/current-affairs/2026-05-03/`) is not returned by the code, because the
filter hard-codes the literal year `2024`; the spec-modelled discovery does
return it. -/
theorem C8_cex :
    validLinks (get_current_month 5) ["/current-affairs/2026-05-03/"] = [] ∧
    specCurrentLinks 2026 5 ["/current-affairs/2026-05-03/"]
      = ["https://www.indiabix.com/current-affairs/2026-05-03/"] ∧
    validLinks (get_current_month 5) ["/current-affairs/2024-05-03/"]
      = ["https://www.indiabix.com/current-affairs/2024-05-03/"] := by
  refine ⟨by decide, by decide, by decide⟩

/-- C8 as amended: the discovery returns exactly the index hrefs containing
the substring `/current-affairs/2024-MM-`, where `MM` is the current month
computed on the fixed Asia/Kolkata clock and the year is the hard-coded
literal 2024 — i.e. it agrees with the spec's "current year and month" rule
exactly when that rule is evaluated with the year pinned to 2024. -/
theorem C8_links_law (m : Nat) (hrefs : List String) (u : String) :
    (u ∈ validLinks (get_current_month m) hrefs ↔
      ∃ h ∈ hrefs,
        strContains h ("/current-affairs/2024-" ++ get_current_month m ++ "-") = true ∧
        urljoin_bix h = u) ∧
    validLinks (get_current_month m) hrefs = specCurrentLinks 2024 m hrefs := by
  constructor
  · unfold validLinks
    constructor
    · intro hu
      obtain ⟨h, hh, hjoin⟩ := List.mem_map.mp hu
      obtain ⟨hmem, hfilt⟩ := List.mem_filter.mp hh
      exact ⟨h, hmem, hfilt, hjoin⟩
    · rintro ⟨h, hmem, hfilt, hjoin⟩
      exact List.mem_map.mpr ⟨h, List.mem_filter.mpr ⟨hmem, hfilt⟩, hjoin⟩
  · rfl

/-- Witness for C8: the theorem applied to month 7 and a singleton href
list. -/
theorem C8_witness :
    "https://www.indiabix.com/current-affairs/2024-07-15/"
      ∈ validLinks (get_current_month 7) ["/current-affairs/2024-07-15/"] :=
  (C8_links_law 7 ["/current-affairs/2024-07-15/"]
      "https://www.indiabix.com/current-affairs/2024-07-15/").1.mpr
    ⟨"/current-affairs/2024-07-15/", by decide, by decide, by decide⟩

/-! ### The per-link loop: dedup short-circuit and idempotency (C1) -/

theorem storeExists_append (st d : Store) (ym : String × String) (day : String)
    (h : storeExists st ym day = true) : storeExists (st ++ d) ym day = true := by
  unfold storeExists at h ⊢
  rw [List.any_append, h]
  rfl

theorem storeExists_of_mem (st : Store) (e : (String × String) × QuestionDoc)
    (he : e ∈ st) (h1 : e.1 = ym) (h2 : e.2.day = day) : storeExists st ym day = true := by
  unfold storeExists
  rw [List.any_eq_true]
  exact ⟨e, he, by rw [decide_eq_true_eq]; exact ⟨h1, h2⟩⟩

theorem blockDocs_day (tr : String → String) (day : String)
    (blocks : List (Option RawBlock)) (doc : QuestionDoc)
    (hdoc : doc ∈ blockDocs tr day blocks) : doc.day = day := by
  unfold blockDocs at hdoc
  obtain ⟨b, _, hb⟩ := List.mem_map.mp hdoc
  rw [← hb]
  rfl

theorem insertBlocks_fst (tr : String → String) (ym : String × String) (day : String)
    (blocks : List (Option RawBlock)) (st : Store) :
    (insertBlocks tr ym day blocks st).1
      = st ++ (blockDocs tr day blocks).map (fun doc => (ym, doc)) := by
  rw [insertBlocks_eq]

theorem insertBlocks_snd (tr : String → String) (ym : String × String) (day : String)
    (blocks : List (Option RawBlock)) (st : Store) :
    (insertBlocks tr ym day blocks st).2 = blockDocs tr day blocks := by
  rw [insertBlocks_eq]

theorem runLinks_nil (tr : String → String) (pg : String → Option DayPage) (st : Store) :
    runLinks tr pg [] st = ⟨st, [], [], false⟩ := rfl

theorem runLinks_cons (tr : String → String) (pg : String → Option DayPage)
    (u : String) (rest : List String) (st : Store) :
    runLinks tr pg (u :: rest) st =
      (if storeExists st (urlYMD u).1 (urlYMD u).2 then runLinks tr pg rest st
       else
        match pg u with
        | none => ⟨st, [u], [], true⟩
        | some page =>
          ⟨(runLinks tr pg rest
              (insertBlocks tr (urlYMD u).1 (urlYMD u).2 page.blocks st).1).store,
           u :: (runLinks tr pg rest
              (insertBlocks tr (urlYMD u).1 (urlYMD u).2 page.blocks st).1).fetched,
           (insertBlocks tr (urlYMD u).1 (urlYMD u).2 page.blocks st).2
             ++ (runLinks tr pg rest
              (insertBlocks tr (urlYMD u).1 (urlYMD u).2 page.blocks st).1).docs,
           (runLinks tr pg rest
              (insertBlocks tr (urlYMD u).1 (urlYMD u).2 page.blocks st).1).aborted⟩) := rfl

theorem runLinks_cons_skip (tr : String → String) (pg : String → Option DayPage)
    (u : String) (rest : List String) (st : Store)
    (h : storeExists st (urlYMD u).1 (urlYMD u).2 = true) :
    runLinks tr pg (u :: rest) st = runLinks tr pg rest st := by
  rw [runLinks_cons, if_pos h]

theorem runLinks_cons_fail (tr : String → String) (pg : String → Option DayPage)
    (u : String) (rest : List String) (st : Store)
    (h : storeExists st (urlYMD u).1 (urlYMD u).2 = false) (hpg : pg u = none) :
    runLinks tr pg (u :: rest) st = ⟨st, [u], [], true⟩ := by
  rw [runLinks_cons, if_neg (by simp [h]), hpg]

theorem runLinks_cons_fetch (tr : String → String) (pg : String → Option DayPage)
    (u : String) (rest : List String) (st : Store) (page : DayPage)
    (h : storeExists st (urlYMD u).1 (urlYMD u).2 = false) (hpg : pg u = some page) :
    runLinks tr pg (u :: rest) st =
      ⟨(runLinks tr pg rest
          (insertBlocks tr (urlYMD u).1 (urlYMD u).2 page.blocks st).1).store,
       u :: (runLinks tr pg rest
          (insertBlocks tr (urlYMD u).1 (urlYMD u).2 page.blocks st).1).fetched,
       (insertBlocks tr (urlYMD u).1 (urlYMD u).2 page.blocks st).2
         ++ (runLinks tr pg rest
          (insertBlocks tr (urlYMD u).1 (urlYMD u).2 page.blocks st).1).docs,
       (runLinks tr pg rest
          (insertBlocks tr (urlYMD u).1 (urlYMD u).2 page.blocks st).1).aborted⟩ := by
  rw [runLinks_cons, if_neg (by simp [h]), hpg]

theorem runLinks_fetch_store (tr : String → String) (pg : String → Option DayPage)
    (u : String) (rest : List String) (st : Store) (page : DayPage)
    (h : storeExists st (urlYMD u).1 (urlYMD u).2 = false) (hpg : pg u = some page) :
    (runLinks tr pg (u :: rest) st).store
      = (runLinks tr pg rest
          (insertBlocks tr (urlYMD u).1 (urlYMD u).2 page.blocks st).1).store := by
  rw [runLinks_cons_fetch tr pg u rest st page h hpg]

theorem runLinks_fetch_fetched (tr : String → String) (pg : String → Option DayPage)
    (u : String) (rest : List String) (st : Store) (page : DayPage)
    (h : storeExists st (urlYMD u).1 (urlYMD u).2 = false) (hpg : pg u = some page) :
    (runLinks tr pg (u :: rest) st).fetched
      = u :: (runLinks tr pg rest
          (insertBlocks tr (urlYMD u).1 (urlYMD u).2 page.blocks st).1).fetched := by
  rw [runLinks_cons_fetch tr pg u rest st page h hpg]

/-- The loop only ever appends to the store. -/
theorem runLinks_store_extends (tr : String → String) (pg : String → Option DayPage) :
    ∀ (links : List String) (st : Store),
      ∃ d, (runLinks tr pg links st).store = st ++ d := by
  intro links
  induction links with
  | nil => exact fun st => ⟨[], by rw [runLinks_nil, List.append_nil]⟩
  | cons u rest ih =>
    intro st
    by_cases h : storeExists st (urlYMD u).1 (urlYMD u).2 = true
    · rw [runLinks_cons_skip tr pg u rest st h]
      exact ih st
    · have hb : storeExists st (urlYMD u).1 (urlYMD u).2 = false := by
        simpa using h
      cases hpg : pg u with
      | none =>
        refine ⟨[], ?_⟩
        rw [runLinks_cons_fail tr pg u rest st hb hpg, List.append_nil]
      | some page =>
        obtain ⟨d2, h2⟩ := ih (insertBlocks tr (urlYMD u).1 (urlYMD u).2 page.blocks st).1
        refine ⟨(blockDocs tr (urlYMD u).2 page.blocks).map (fun doc => ((urlYMD u).1, doc))
          ++ d2, ?_⟩
        rw [runLinks_fetch_store tr pg u rest st page hb hpg, h2,
          insertBlocks_fst, List.append_assoc]

/-- The dedup short-circuit: once a day key is present in the store, no link
with that key is ever fetched and no record with that key is ever added. -/
theorem runLinks_dedup (tr : String → String) (pg : String → Option DayPage)
    (ym : String × String) (d : String) :
    ∀ (links : List String) (st : Store), storeExists st ym d = true →
      (∀ v ∈ (runLinks tr pg links st).fetched, urlYMD v ≠ (ym, d)) ∧
      (∀ e ∈ (runLinks tr pg links st).store, e ∉ st → ¬(e.1 = ym ∧ e.2.day = d)) := by
  intro links
  induction links with
  | nil =>
    intro st hst
    rw [runLinks_nil]
    exact ⟨fun v hv => absurd hv (by simp), fun e he hne => absurd he hne⟩
  | cons u rest ih =>
    intro st hst
    by_cases h : storeExists st (urlYMD u).1 (urlYMD u).2 = true
    · rw [runLinks_cons_skip tr pg u rest st h]
      exact ih st hst
    · have hb : storeExists st (urlYMD u).1 (urlYMD u).2 = false := by
        simpa using h
      have hneq : urlYMD u ≠ (ym, d) := by
        intro hequ
        rw [hequ] at hb
        simp only at hb
        rw [hst] at hb
        exact Bool.noConfusion hb
      cases hpg : pg u with
      | none =>
        rw [runLinks_cons_fail tr pg u rest st hb hpg]
        constructor
        · intro v hv
          have : v = u := by simpa using hv
          rw [this]
          exact hneq
        · intro e he hne
          exact absurd he hne
      | some page =>
        rw [runLinks_cons_fetch tr pg u rest st page hb hpg]
        have hst' : storeExists
            (insertBlocks tr (urlYMD u).1 (urlYMD u).2 page.blocks st).1 ym d = true := by
          rw [insertBlocks_eq]
          exact storeExists_append _ _ _ _ hst
        obtain ⟨ihf, ihs⟩ := ih (insertBlocks tr (urlYMD u).1 (urlYMD u).2 page.blocks st).1 hst'
        constructor
        · intro v hv
          rcases List.mem_cons.mp hv with hv | hv
          · rw [hv]; exact hneq
          · exact ihf v hv
        · intro e he hne
          by_cases hes : e ∈ (insertBlocks tr (urlYMD u).1 (urlYMD u).2 page.blocks st).1
          · rw [insertBlocks_eq] at hes
            rcases List.mem_append.mp hes with h1 | h2
            · exact absurd h1 hne
            · obtain ⟨doc, hdoc, hedoc⟩ := List.mem_map.mp h2
              rintro ⟨hk1, hk2⟩
              apply hneq
              rw [← hedoc] at hk1 hk2
              exact Prod.ext_iff.mpr ⟨hk1, (blockDocs_day tr _ _ doc hdoc) ▸ hk2⟩
          · exact ihs e he hes

/-- Re-running the loop over the same links and environment on its own final
store changes nothing. -/
theorem runLinks_idem (tr : String → String) (pg : String → Option DayPage) :
    ∀ (links : List String) (st : Store),
      (runLinks tr pg links (runLinks tr pg links st).store).store
        = (runLinks tr pg links st).store := by
  intro links
  induction links with
  | nil => intro st; rw [runLinks_nil, runLinks_nil]
  | cons u rest ih =>
    intro st
    by_cases h : storeExists st (urlYMD u).1 (urlYMD u).2 = true
    · rw [runLinks_cons_skip tr pg u rest st h]
      obtain ⟨d2, h2⟩ := runLinks_store_extends tr pg rest st
      have h' : storeExists (runLinks tr pg rest st).store (urlYMD u).1 (urlYMD u).2 = true := by
        rw [h2]
        exact storeExists_append _ _ _ _ h
      rw [runLinks_cons_skip tr pg u rest _ h']
      exact ih st
    · have hb : storeExists st (urlYMD u).1 (urlYMD u).2 = false := by
        simpa using h
      cases hpg : pg u with
      | none =>
        rw [runLinks_cons_fail tr pg u rest st hb hpg]
        rw [runLinks_cons_fail tr pg u rest st hb hpg]
      | some page =>
        rw [runLinks_fetch_store tr pg u rest st page hb hpg]
        by_cases h2 : storeExists
            (runLinks tr pg rest
              (insertBlocks tr (urlYMD u).1 (urlYMD u).2 page.blocks st).1).store
            (urlYMD u).1 (urlYMD u).2 = true
        · rw [runLinks_cons_skip tr pg u rest _ h2]
          exact ih (insertBlocks tr (urlYMD u).1 (urlYMD u).2 page.blocks st).1
        · have hb2 : storeExists
              (runLinks tr pg rest
                (insertBlocks tr (urlYMD u).1 (urlYMD u).2 page.blocks st).1).store
              (urlYMD u).1 (urlYMD u).2 = false := by
            simpa using h2
          have hdocs : blockDocs tr (urlYMD u).2 page.blocks = [] := by
            cases hbd : blockDocs tr (urlYMD u).2 page.blocks with
            | nil => rfl
            | cons a l =>
              exfalso
              have hdoc : a ∈ blockDocs tr (urlYMD u).2 page.blocks := by
                rw [hbd]
                exact List.mem_cons_self a l
              have hmem : ((urlYMD u).1, a)
                  ∈ (insertBlocks tr (urlYMD u).1 (urlYMD u).2 page.blocks st).1 := by
                rw [insertBlocks_fst]
                exact List.mem_append.mpr (Or.inr (List.mem_map.mpr ⟨a, hdoc, rfl⟩))
              obtain ⟨d2, hd2⟩ := runLinks_store_extends tr pg rest
                (insertBlocks tr (urlYMD u).1 (urlYMD u).2 page.blocks st).1
              have htrue : storeExists
                  (runLinks tr pg rest
                    (insertBlocks tr (urlYMD u).1 (urlYMD u).2 page.blocks st).1).store
                  (urlYMD u).1 (urlYMD u).2 = true := by
                rw [hd2]
                exact storeExists_append _ _ _ _
                  (storeExists_of_mem _ _ hmem rfl (blockDocs_day tr _ _ a hdoc))
              rw [htrue] at hb2
              exact Bool.noConfusion hb2
          have hst' : (insertBlocks tr (urlYMD u).1 (urlYMD u).2 page.blocks st).1 = st := by
            rw [insertBlocks_fst, hdocs]
            simp
          rw [runLinks_fetch_store tr pg u rest _ page hb2 hpg]
          have hins2 : (insertBlocks tr (urlYMD u).1 (urlYMD u).2 page.blocks
              (runLinks tr pg rest
                (insertBlocks tr (urlYMD u).1 (urlYMD u).2 page.blocks st).1).store).1
              = (runLinks tr pg rest
                (insertBlocks tr (urlYMD u).1 (urlYMD u).2 page.blocks st).1).store := by
            rw [insertBlocks_fst, hdocs]
            simp
          rw [hins2, hst']
          exact ih st

/-- The store a scrape run leaves behind, in terms of the loop. -/
theorem scrape_store (tr : String → String) (pg : String → Option DayPage)
    (hrefs : List String) (ist_month : Nat) (st0 : Store) :
    (scrape_questions_to_mongodb tr ⟨some hrefs, pg⟩ ist_month st0).store
      = (runLinks tr pg (validLinks (get_current_month ist_month) hrefs) st0).store := by
  unfold scrape_questions_to_mongodb
  cases habort : (runLinks tr pg (validLinks (get_current_month ist_month) hrefs) st0).aborted
  all_goals simp [habort]

/-- The day pages a scrape run fetched, in terms of the loop. -/
theorem scrape_fetched (tr : String → String) (pg : String → Option DayPage)
    (hrefs : List String) (ist_month : Nat) (st0 : Store) :
    (scrape_questions_to_mongodb tr ⟨some hrefs, pg⟩ ist_month st0).fetched
      = (runLinks tr pg (validLinks (get_current_month ist_month) hrefs) st0).fetched := by
  unfold scrape_questions_to_mongodb
  cases habort : (runLinks tr pg (validLinks (get_current_month ist_month) hrefs) st0).aborted
  all_goals simp [habort]

/-- C1: a day-page link whose day key is already present in its
(year, month) partition of the store is skipped entirely — no link with that
day key is fetched and no record with that day key is inserted — and a second
run of the pipeline over an unchanged source, starting from the store the
first run produced, inserts zero additional records. -/
theorem C1_dedup_skip_idempotent (tr : String → String) (pg : String → Option DayPage)
    (hrefs : List String) (ist_month : Nat) (st0 : Store) (u : String)
    (hu : storeExists st0 (urlYMD u).1 (urlYMD u).2 = true) :
    (∀ v ∈ (scrape_questions_to_mongodb tr ⟨some hrefs, pg⟩ ist_month st0).fetched,
      urlYMD v ≠ urlYMD u) ∧
    (∀ e ∈ (scrape_questions_to_mongodb tr ⟨some hrefs, pg⟩ ist_month st0).store,
      e ∉ st0 → ¬(e.1 = (urlYMD u).1 ∧ e.2.day = (urlYMD u).2)) ∧
    (scrape_questions_to_mongodb tr ⟨some hrefs, pg⟩ ist_month
        (scrape_questions_to_mongodb tr ⟨some hrefs, pg⟩ ist_month st0).store).store
      = (scrape_questions_to_mongodb tr ⟨some hrefs, pg⟩ ist_month st0).store := by
  obtain ⟨hf, hs⟩ := runLinks_dedup tr pg (urlYMD u).1 (urlYMD u).2
    (validLinks (get_current_month ist_month) hrefs) st0 hu
  refine ⟨?_, ?_, ?_⟩
  · intro v hv
    rw [scrape_fetched] at hv
    exact hf v hv
  · intro e he hne
    rw [scrape_store] at he
    exact hs e he hne
  · rw [scrape_store, scrape_store]
    exact runLinks_idem tr pg (validLinks (get_current_month ist_month) hrefs) st0

/-- Witness for C1: a store already holding the day key of the only candidate
link; the second-run store equals the first-run store. -/
theorem C1_witness :
    storeExists [(("current-affairs", "2024-05-03"), ⟨"q", ["a"], "A", "e", 0, ""⟩)]
      (urlYMD "https://www.indiabix.com/current-affairs/2024-05-03/").1
      (urlYMD "https://www.indiabix.com/current-affairs/2024-05-03/").2 = true ∧
    (scrape_questions_to_mongodb (fun s => s)
        ⟨some ["/current-affairs/2024-05-03/"], fun _ => none⟩ 5
        (scrape_questions_to_mongodb (fun s => s)
          ⟨some ["/current-affairs/2024-05-03/"], fun _ => none⟩ 5
          [(("current-affairs", "2024-05-03"), ⟨"q", ["a"], "A", "e", 0, ""⟩)]).store).store
      = (scrape_questions_to_mongodb (fun s => s)
          ⟨some ["/current-affairs/2024-05-03/"], fun _ => none⟩ 5
          [(("current-affairs", "2024-05-03"), ⟨"q", ["a"], "A", "e", 0, ""⟩)]).store :=
  ⟨by decide,
   (C1_dedup_skip_idempotent (fun s => s) (fun _ => none) ["/current-affairs/2024-05-03/"] 5
     [(("current-affairs", "2024-05-03"), ⟨"q", ["a"], "A", "e", 0, ""⟩)]
     "https://www.indiabix.com/current-affairs/2024-05-03/" (by decide)).2.2⟩

/-- C4 evaluated at the failing input `c4env`: the second day's page fetch
raises, the exception escapes the per-link loop into the handler of lines
187-189, and the whole run aborts — the third link is never fetched, the
function returns `[]` even though the first day's record was already
inserted, and `close_connection` never runs.  The claim's behaviour (skip
that day only, keep processing, return the earlier records) does not hold. -/
theorem C4_day_fetch_aborts_run :
    (scrape_questions_to_mongodb (fun s => s) c4env 5 []).fetched
      = ["https://www.indiabix.com/current-affairs/2024-05-01/",
         "https://www.indiabix.com/current-affairs/2024-05-02/"] ∧
    (scrape_questions_to_mongodb (fun s => s) c4env 5 []).returned = [] ∧
    (scrape_questions_to_mongodb (fun s => s) c4env 5 []).store.length = 1 ∧
    (scrape_questions_to_mongodb (fun s => s) c4env 5 []).closed = 0 :=
  ⟨by decide, by decide, by decide, by decide⟩

/-- C5 evaluated on both exit paths: on the aborted run of `c4env` the Mongo
client was constructed but `close_connection` ran zero times (line 184 is not
in a `finally`), while a clean run closes exactly once — refuting "exactly
once on every exit path". -/
theorem C5_close_skipped_on_abort :
    (scrape_questions_to_mongodb (fun s => s) c4env 5 []).connected = true ∧
    (scrape_questions_to_mongodb (fun s => s) c4env 5 []).closed = 0 ∧
    (scrape_questions_to_mongodb (fun s => s)
        ⟨some ["/current-affairs/2024-05-01/"], fun _ => some ⟨[some c4block]⟩⟩ 5 []).closed
      = 1 :=
  ⟨by decide, by decide, by decide⟩

end Bix
